import Mathlib

/-!
Shallow embedding of the instrux recursive template compiler
(`src/compiler.ts` = `InstruxCompiler`, and `src/frontmatter.ts`),
together with proofs about the claims of the specification.

Modelling conventions:
* YAML frontmatter values are a small closed union (`Value`); a parsed
  frontmatter block is an association list `List (String × Value)`.
* Template contents are pre-parsed directive lists (`List Item`): the
  Handlebars surface syntax is external to the core; the items are exactly
  the four helper calls the compiler registers ({{tag}}, {{file}},
  {{tagged}}, {{meta}}) plus literal text.  The `tagged` helper returns an
  array of elements; the `#each` block that usually consumes it is
  Handlebars built-in machinery outside the registered-helper surface, so
  the item renders the helper's return value in mustache position (the JS
  array-to-string coercion) — the helper's recursive `compileFile` calls
  happen identically either way.
* File-system reads are modelled by an association list `Disk` holding, per
  path, the result of running the metadata extractor (gray-matter) on the
  raw file: its frontmatter data and its body content.
* JavaScript `Map` is modelled as an association list with replace-on-set
  (`setAssoc`) and first-match lookup (`lookupAssoc`); a JS `Set` (whose
  iteration order is insertion order) is a duplicate-free `List` grown with
  `insertSet` at the tail.
* The unbounded recursion of `compileFile` is made total with an explicit
  fuel parameter; exhaustion is the distinguished error `outOfFuel`, and
  the termination claim is proved as: enough fuel never exhausts.
-/

namespace Instrux

/-- A parsed YAML metadata value: string, number, list of strings, or a
nested mapping. -/
inductive Value where
  | str (s : String)
  | num (n : Int)
  | listStr (xs : List String)
  | vmap (entries : List (String × Value))

/-- First-match association-list lookup; models `Map.prototype.get` for maps
built with `setAssoc`, and plain JS object key access. -/
def lookupAssoc {α : Type} : List (String × α) → String → Option α
  | [], _ => none
  | (k, v) :: rest, key => if k = key then some v else lookupAssoc rest key

/-- Replace-or-append association-list update; models `Map.prototype.set`. -/
def setAssoc {α : Type} : List (String × α) → String → α → List (String × α)
  | [], k, v => [(k, v)]
  | (k', v') :: rest, k, v =>
      if k' = k then (k, v) :: rest else (k', v') :: setAssoc rest k v

/-- `InstruxMeta` of `types.ts`: the compiler-owned metadata nested under
the `instrux:` frontmatter key. -/
structure InstruxMeta where
  tags : Option (List String) := none
  order : Option Int := none
  description : Option String := none
deriving DecidableEq

/-- A template directive as registered by `registerHelpers` — the four
helpers `tag`, `file`, `tagged` and `meta` — or literal text between
directives. -/
inductive Item where
  | text (s : String)
  | tag (t : String)
  | file (p : String)
  | tagged (t : String)
  | meta (k : String)
deriving DecidableEq

/-- `SourceFile` of `types.ts`: a scanned source file with separated
frontmatter and body content. -/
structure SourceFile where
  path : String
  frontmatter : List (String × Value)
  instrux : InstruxMeta
  content : List Item

/-- `SourceIndex` of `types.ts`: files plus the tag and path maps. -/
structure SourceIndex where
  files : List SourceFile
  tags : List (String × List SourceFile)
  paths : List (String × SourceFile)

/-- `relPath.replace(/\\/g, '/')`: normalise backslashes to forward
slashes. -/
def normalisePath (p : String) : String :=
  ⟨p.data.map (fun c => if c = '\\' then '/' else c)⟩

/-- `frontmatter.instrux ?? {}` together with the typed reads of its
`tags` / `order` / `description` fields (a field of the wrong shape reads
as absent, as the untyped JS accesses would yield `undefined` semantics
for the recognised shapes). -/
def extractInstrux (fm : List (String × Value)) : InstruxMeta :=
  match lookupAssoc fm "instrux" with
  | some (.vmap es) =>
      { tags := match lookupAssoc es "tags" with
          | some (.listStr xs) => some xs
          | _ => none
        order := match lookupAssoc es "order" with
          | some (.num n) => some n
          | _ => none
        description := match lookupAssoc es "description" with
          | some (.str s) => some s
          | _ => none }
  | _ => {}

/-- One scanned file as handed to the indexer: its relative path and the
two halves produced by the metadata extractor (gray-matter): frontmatter
data and body content. The glob scan and file reads are external I/O. -/
structure ScannedFile where
  path : String
  frontmatter : List (String × Value)
  content : List Item

/-- Loop body of `buildSourceIndex`: register one scanned file (push to
`files`, set `paths`, append to one tag bucket per entry of
`instrux.tags`). -/
def indexStep (acc : SourceIndex) (raw : ScannedFile) : SourceIndex :=
  let instrux := extractInstrux raw.frontmatter
  let sf : SourceFile :=
    { path := normalisePath raw.path
      frontmatter := raw.frontmatter
      instrux := instrux
      content := raw.content }
  let tags :=
    match instrux.tags with
    | none => acc.tags
    | some ts =>
        ts.foldl (fun m t => setAssoc m t ((lookupAssoc m t).getD [] ++ [sf])) acc.tags
  { files := acc.files ++ [sf], tags := tags, paths := setAssoc acc.paths sf.path sf }

/-- `buildSourceIndex` of `frontmatter.ts` (its pure indexing loop; glob
expansion and file reading are external). -/
def buildSourceIndex (inputs : List ScannedFile) : SourceIndex :=
  inputs.foldl indexStep ⟨[], [], []⟩

/-- `a.instrux.order ?? 999`, the sort key of `sortSourceFiles`. -/
def orderOf (f : SourceFile) : Int :=
  f.instrux.order.getD 999

/-- Non-strict lexicographic comparison of character lists (the model of
`localeCompare`-based path ordering). -/
def charListLe : List Char → List Char → Bool
  | [], _ => true
  | _ :: _, [] => false
  | a :: as, b :: bs => if a = b then charListLe as bs else decide (a < b)

/-- Non-strict lexicographic string comparison. -/
def stringLe (a b : String) : Bool :=
  charListLe a.data b.data

theorem charListLe_total : ∀ xs ys : List Char, charListLe xs ys = true ∨ charListLe ys xs = true
  | [], _ => Or.inl rfl
  | _ :: _, [] => Or.inr rfl
  | a :: as, b :: bs => by
    rcases lt_trichotomy a b with h | h | h
    · left; simp [charListLe, h, ne_of_lt h]
    · subst h
      rcases charListLe_total as bs with h' | h'
      · left; simp [charListLe, h']
      · right; simp [charListLe, h']
    · right; simp [charListLe, h, ne_of_lt h]

theorem charListLe_trans : ∀ xs ys zs : List Char,
    charListLe xs ys = true → charListLe ys zs = true → charListLe xs zs = true
  | [], _, _, _, _ => rfl
  | a :: as, [], _, h, _ => by simp [charListLe] at h
  | a :: as, b :: bs, [], _, h => by simp [charListLe] at h
  | a :: as, b :: bs, c :: cs, h1, h2 => by
    by_cases hab : a = b <;> by_cases hbc : b = c
    · subst hab; subst hbc
      simp only [charListLe, if_pos rfl] at h1 h2 ⊢
      exact charListLe_trans as bs cs h1 h2
    · subst hab
      simp only [charListLe, if_neg hbc, decide_eq_true_eq] at h2
      simp [charListLe, if_neg (ne_of_lt h2), h2]
    · subst hbc
      simp only [charListLe, if_neg hab, decide_eq_true_eq] at h1
      simp [charListLe, if_neg (ne_of_lt h1), h1]
    · simp only [charListLe, if_neg hab, decide_eq_true_eq] at h1
      simp only [charListLe, if_neg hbc, decide_eq_true_eq] at h2
      have hac := lt_trans h1 h2
      simp [charListLe, if_neg (ne_of_lt hac), hac]

/-- The comparator of `sortSourceFiles` as a non-strict relation:
`(oa - ob)` primary, `localeCompare` on paths (modelled as lexicographic
string order) as tie-break. -/
def fileLe (a b : SourceFile) : Prop :=
  orderOf a < orderOf b ∨ (orderOf a = orderOf b ∧ stringLe a.path b.path = true)

instance : DecidableRel fileLe := fun a b => by
  unfold fileLe; exact inferInstance

instance : IsTotal SourceFile fileLe where
  total a b := by
    unfold fileLe
    rcases lt_trichotomy (orderOf a) (orderOf b) with h | h | h
    · exact Or.inl (Or.inl h)
    · rcases charListLe_total a.path.data b.path.data with hp | hp
      · exact Or.inl (Or.inr ⟨h, hp⟩)
      · exact Or.inr (Or.inr ⟨h.symm, hp⟩)
    · exact Or.inr (Or.inl h)

instance : IsTrans SourceFile fileLe where
  trans a b c hab hbc := by
    unfold fileLe at *
    rcases hab with h1 | ⟨h1, p1⟩ <;> rcases hbc with h2 | ⟨h2, p2⟩
    · exact Or.inl (h1.trans h2)
    · exact Or.inl (h2 ▸ h1)
    · exact Or.inl (h1 ▸ h2)
    · exact Or.inr ⟨h1.trans h2, charListLe_trans _ _ _ p1 p2⟩

/-- `sortSourceFiles` of `frontmatter.ts`: stable sort by
`(instrux.order ?? 999, path)`.  JS `Array.prototype.sort` is a stable
sort; `insertionSort` with the non-strict comparator relation is one. -/
def sortSourceFiles (files : List SourceFile) : List SourceFile :=
  files.insertionSort fileLe

/-- `stripInstruxMeta` of `frontmatter.ts`: drop the `instrux` key,
keeping every pass-through field. -/
def stripInstruxMeta (fm : List (String × Value)) : List (String × Value) :=
  fm.filter (fun kv => kv.1 != "instrux")

mutual
/-- One line (or block) of the YAML dump used by `serializeFrontmatter`
(`matter.stringify`, i.e. js-yaml dump, restricted to the value union). -/
def dumpEntry (ind : String) (k : String) : Value → String
  | .str s => ind ++ k ++ ": " ++ s ++ "\n"
  | .num n => ind ++ k ++ ": " ++ toString n ++ "\n"
  | .listStr xs =>
      ind ++ k ++ ":\n" ++ String.join (xs.map (fun x => ind ++ "  - " ++ x ++ "\n"))
  | .vmap es => ind ++ k ++ ":\n" ++ dumpEntries (ind ++ "  ") es

/-- YAML dump of a frontmatter mapping, one entry after another. -/
def dumpEntries (ind : String) : List (String × Value) → String
  | [] => ""
  | (k, v) :: rest => dumpEntry ind k v ++ dumpEntries ind rest
end

/-- `serializeFrontmatter` of `frontmatter.ts`: empty for an empty object;
otherwise `matter.stringify('', data).trimEnd() + '\n\n'`.  Since the dump
ends every line with a newline and the block closes with `---\n`, the
`trimEnd` leaves exactly `---\n<yaml>---`; the model builds that directly. -/
def serializeFrontmatter (data : List (String × Value)) : String :=
  if data.isEmpty then ""
  else "---\n" ++ dumpEntries "" data ++ "---" ++ "\n\n"

-- ── Compiler (`InstruxCompiler`) ─────────────────────────────

/-- The compiler's mutable traversal state: `compileStack`,
`compiledFiles`, `tagsUsed` (all JS `Set`s, iteration in insertion
order). -/
structure RState where
  activeStack : List String
  compiledFiles : List String
  tagsUsed : List String
deriving DecidableEq

/-- The errors the compiler can raise, plus the fuel-exhaustion artefact
of the embedding. -/
inductive CompileError where
  | circular (chain : List String)
  | fileNotFound (path : String)
  | missingEntry
  | missingSources
  | outOfFuel
deriving DecidableEq

/-- `Set.prototype.add`: append if absent. -/
def insertSet (x : String) (l : List String) : List String :=
  if x ∈ l then l else l ++ [x]

/-- On-disk files as seen through `matter(raw)`: path ↦ (frontmatter
data, body content). -/
abbrev Disk := List (String × (List (String × Value) × List Item))

/-- The read-only environment of one compilation: the built index, the
disk for the direct-read fallback, and the configured separator. -/
structure Env where
  index : SourceIndex
  disk : Disk
  sep : String

/-- JS string coercion of a metadata value (template interpolation). -/
def valueToString : Value → String
  | .str s => s
  | .num n => toString n
  | .listStr xs => String.intercalate "," xs
  | .vmap _ => "[object Object]"

/-- The type of the recursive resolution callback threaded into the
helpers (`self.compileFile`). -/
def Resolver : Type :=
  String → RState → Except CompileError (String × RState)

/-- `sorted.map(f => self.compileFile(f.path))` — resolve a list of paths
in order, collecting the rendered fragments. -/
def renderPaths (resolve : Resolver) : List String → RState → Except CompileError (List String × RState)
  | [], st => .ok ([], st)
  | p :: rest, st =>
      match resolve p st with
      | .error e => .error e
      | .ok (s, st') =>
          match renderPaths resolve rest st' with
          | .error e => .error e
          | .ok (ss, st'') => .ok (s :: ss, st'')

-- ── The `tagged` helper's elements ───────────────────────────

/-- Split a character list at a separator character (used for the
`path.basename` model). -/
def splitOnChar (c : Char) : List Char → List (List Char)
  | [] => [[]]
  | x :: xs =>
      match splitOnChar c xs with
      | [] => if x = c then [[], []] else [[x]]
      | h :: t => if x = c then [] :: h :: t else (x :: h) :: t

/-- `path.basename(p, '.md')`: the last path segment, with a trailing
`.md` removed unless the whole segment is `.md`. -/
def basenameNoMd (p : String) : String :=
  let base := (splitOnChar '/' p.data).getLastD p.data
  let ext := ".md".data
  if (base != ext) && ext.isSuffixOf base then ⟨base.take (base.length - 3)⟩
  else ⟨base⟩

/-- The `title` field of a `tagged` element:
`f.frontmatter.title ?? path.basename(f.path, '.md')`. -/
def titleOf (f : SourceFile) : String :=
  match lookupAssoc f.frontmatter "title" with
  | some v => valueToString v
  | none => basenameNoMd f.path

/-- The `description` field of a `tagged` element:
`f.frontmatter.description ?? f.instrux.description ?? ''`. -/
def descriptionOf (f : SourceFile) : String :=
  match lookupAssoc f.frontmatter "description" with
  | some v => valueToString v
  | none => f.instrux.description.getD ""

/-- One element of the array returned by the `tagged` helper. -/
structure TagElement where
  body : String
  raw : List Item
  path : String
  title : String
  description : String
  frontmatter : List (String × Value)
  instrux : InstruxMeta

/-- `sorted.map(f => ({body: compileFile(f.path), raw, path, title,
description, frontmatter, instrux}))` — build the iteration elements,
resolving each body recursively. -/
def taggedElems (resolve : Resolver) : List SourceFile → RState → Except CompileError (List TagElement × RState)
  | [], st => .ok ([], st)
  | f :: rest, st =>
      match resolve f.path st with
      | .error e => .error e
      | .ok (body, st') =>
          match taggedElems resolve rest st' with
          | .error e => .error e
          | .ok (es, st'') =>
              .ok ({ body := body
                     raw := f.content
                     path := f.path
                     title := titleOf f
                     description := descriptionOf f
                     frontmatter := f.frontmatter
                     instrux := f.instrux } :: es, st'')

/-- Evaluate one template item: literal text, the `meta` helper (current
file's frontmatter lookup, empty when absent), the `file` helper
(recursive resolution), the `tag` helper (sorted bucket, each file
recursively resolved, joined with the separator; an empty bucket is a
soft no-op), or the `tagged` helper (sorted bucket built into iteration
elements, each body recursively resolved; the returned array renders in
mustache position via the JS array-to-string coercion, each element an
object). -/
def renderItem (resolve : Resolver) (env : Env) (meta : List (String × Value)) :
    Item → RState → Except CompileError (String × RState)
  | .text s, st => .ok (s, st)
  | .meta k, st =>
      .ok ((match lookupAssoc meta k with
            | some v => valueToString v
            | none => ""), st)
  | .file p, st => resolve p st
  | .tag t, st =>
      let st := { st with tagsUsed := insertSet t st.tagsUsed }
      let files := (lookupAssoc env.index.tags t).getD []
      if files.isEmpty then .ok ("", st)
      else
        match renderPaths resolve ((sortSourceFiles files).map (·.path)) st with
        | .error e => .error e
        | .ok (parts, st') => .ok (String.intercalate env.sep parts, st')
  | .tagged t, st =>
      let st := { st with tagsUsed := insertSet t st.tagsUsed }
      let files := (lookupAssoc env.index.tags t).getD []
      if files.isEmpty then .ok ("", st)
      else
        match taggedElems resolve (sortSourceFiles files) st with
        | .error e => .error e
        | .ok (es, st') =>
            .ok (String.intercalate "," (es.map (fun _ => "[object Object]")), st')

/-- Evaluate a template (list of items) left to right, concatenating the
rendered pieces. -/
def renderItems (resolve : Resolver) (env : Env) (meta : List (String × Value)) :
    List Item → RState → Except CompileError (String × RState)
  | [], st => .ok ("", st)
  | it :: rest, st =>
      match renderItem resolve env meta it st with
      | .error e => .error e
      | .ok (s, st') =>
          match renderItems resolve env meta rest st' with
          | .error e => .error e
          | .ok (s', st'') => .ok (s ++ s', st'')

/-- `compileFile` of `InstruxCompiler`: normalise, cycle-check against the
active stack (error chain = stack ++ [path]), push, resolve content from
the index or fall back to a direct disk read (whose frontmatter is
discarded), render with the indexed frontmatter (or empty) as `meta`
context, pop, return. -/
def resolveFile (fuel : Nat) (env : Env) (relPath : String) (st : RState) :
    Except CompileError (String × RState) :=
  match fuel with
  | 0 => .error .outOfFuel
  | fuel + 1 =>
      let p := normalisePath relPath
      if p ∈ st.activeStack then .error (.circular (st.activeStack ++ [p]))
      else
        let st1 : RState :=
          { activeStack := st.activeStack ++ [p]
            compiledFiles := insertSet p st.compiledFiles
            tagsUsed := st.tagsUsed }
        let indexed := lookupAssoc env.index.paths p
        let content? : Option (List Item) :=
          match indexed with
          | some sf => some sf.content
          | none => (lookupAssoc env.disk p).map (fun d => d.2)
        match content? with
        | none => .error (.fileNotFound p)
        | some content =>
            let meta :=
              match indexed with
              | some sf => sf.frontmatter
              | none => []
            match renderItems (fun q s => resolveFile fuel env q s) env meta content st1 with
            | .error e => .error e
            | .ok (s, st2) => .ok (s, { st2 with activeStack := st2.activeStack.erase p })

/-- Just the rendered text of a resolution. -/
def resolveText (fuel : Nat) (env : Env) (p : String) (st : RState) :
    Except CompileError String :=
  (resolveFile fuel env p st).map (fun r => r.1)

/-- The `tagged` helper as invoked with a concrete fuel level: record the
tag, sort its bucket and build the iteration elements (an empty bucket
yields the empty array). -/
def taggedHelper (fuel : Nat) (env : Env) (t : String) (st : RState) :
    Except CompileError (List TagElement × RState) :=
  let st := { st with tagsUsed := insertSet t st.tagsUsed }
  let files := (lookupAssoc env.index.tags t).getD []
  if files.isEmpty then .ok ([], st)
  else taggedElems (fun q s => resolveFile fuel env q s) (sortSourceFiles files) st

-- ── Top-level `compile` ──────────────────────────────────────

/-- The `frontmatter.output` mode of the configuration. -/
inductive FmMode where
  | strip
  | preserve
deriving DecidableEq

/-- `FrontmatterOutput` of `types.ts`. -/
structure FrontmatterOutput where
  output : FmMode
deriving DecidableEq

/-- `MergeSettings` of `types.ts`. -/
structure MergeSettings where
  addSeparators : Bool
  separatorStyle : String
  includeFileHeaders : Bool
  preserveFormatting : Bool
  generateHash : Bool
  useTimestamp : Bool
deriving DecidableEq

/-- `AgentConfig` of `types.ts`, restricted to the fields the template
compiler reads (the simple-merge and CLI fields are external). -/
structure AgentConfig where
  name : String
  description : String
  entry : Option String
  sources : List String
  frontmatter : Option FrontmatterOutput
  mergeSettings : MergeSettings

/-- The separator computed in `registerHelpers`. -/
def sepOf (ms : MergeSettings) : String :=
  if ms.addSeparators then "\n" ++ ms.separatorStyle ++ "\n\n" else "\n\n"

/-- `output.endsWith('\n')` (a one-character suffix test is a last-character
test). -/
def endsWithNewline (s : String) : Bool :=
  s.data.getLast? == some '\n'

/-- `if (!output.endsWith('\n')) output += '\n'`. -/
def ensureTrailingNewline (s : String) : String :=
  if endsWithNewline s then s else s ++ "\n"

/-- `CompileResult` of `compiler.ts`. -/
structure CompileResult where
  output : String
  filesCompiled : Nat
  tagsUsed : List String
deriving DecidableEq

/-- `InstruxCompiler.compile`: config checks, build the index, resolve the
entry with a fresh state, optionally prepend the entry's pass-through
frontmatter in `preserve` mode, ensure a trailing newline. -/
def compile (fuel : Nat) (inputs : List ScannedFile) (disk : Disk) (config : AgentConfig) :
    Except CompileError CompileResult :=
  match config.entry with
  | none => .error .missingEntry
  | some entry =>
      if config.sources.isEmpty then .error .missingSources
      else
        let index := buildSourceIndex inputs
        let env : Env := { index := index, disk := disk, sep := sepOf config.mergeSettings }
        let entryPath := normalisePath entry
        match resolveFile fuel env entryPath ⟨[], [], []⟩ with
        | .error e => .error e
        | .ok (body, st) =>
            let fmMode := (config.frontmatter.map (fun f => f.output)).getD .strip
            let block :=
              if fmMode = .preserve then
                match lookupAssoc index.paths entryPath with
                | some entrySource => serializeFrontmatter (stripInstruxMeta entrySource.frontmatter)
                | none => ""
              else ""
            let output := ensureTrailingNewline (block ++ body)
            .ok { output := output
                  filesCompiled := st.compiledFiles.length
                  tagsUsed := st.tagsUsed }

/-- Just the output text of a compilation. -/
def compileOutput (fuel : Nat) (inputs : List ScannedFile) (disk : Disk) (config : AgentConfig) :
    Except CompileError String :=
  (compile fuel inputs disk config).map (fun r => r.output)

/-- Substring occurrence test (auxiliary, over character lists). -/
def hasInfixAux (pat : List Char) : List Char → Bool
  | [] => pat.isEmpty
  | x :: xs => pat.isPrefixOf (x :: xs) || hasInfixAux pat xs

/-- Substring occurrence test on strings. -/
def containsSubstr (s pat : String) : Bool :=
  hasInfixAux pat.data s.data

/-- Does a string end in exactly one newline (not zero, not two or
more)? -/
def endsWithExactlyOneNewline (s : String) : Bool :=
  match s.data.reverse with
  | '\n' :: '\n' :: _ => false
  | '\n' :: _ => true
  | _ => false

end Instrux

deriving instance DecidableEq for Except

namespace Instrux

-- ── Fixtures and theorems about the claims ───────────────────

/-- A source file whose body is a single path-include of `q`. -/
def includeOnly (p q : String) : SourceFile :=
  { path := p, frontmatter := [], instrux := {}, content := [Item.file q] }

/-- An environment whose index holds exactly a file `A` including `B` and
a file `B` including `A`. -/
def pairIncludeEnv (A B : String) : Env :=
  { index := { files := [includeOnly A B, includeOnly B A]
               tags := []
               paths := [(A, includeOnly A B), (B, includeOnly B A)] }
    disk := []
    sep := "\n---\n\n" }

/-- An environment whose index holds exactly a file `A` including its own
path. -/
def selfIncludeEnv (A : String) : Env :=
  { index := { files := [includeOnly A A], tags := [], paths := [(A, includeOnly A A)] }
    disk := []
    sep := "\n---\n\n" }

/-- C1: if the path being resolved is already on the active resolution
stack, resolution fails with a circular-reference error whose chain is the
stack (the inclusion chain from the entry) followed by the repeated path;
for any two distinct files that path-include each other, resolving the
first with a fresh state yields the chain [A, B, A]; a file that
path-includes its own path yields the chain [A, A]. -/
theorem C1_cycle_detection :
    (∀ (fuel : Nat) (env : Env) (p : String) (st : RState),
        normalisePath p ∈ st.activeStack →
        resolveFile (fuel + 1) env p st =
          .error (.circular (st.activeStack ++ [normalisePath p]))) ∧
    (∀ (fuel : Nat) (A B : String), A ≠ B → normalisePath A = A → normalisePath B = B →
        resolveFile (fuel + 3) (pairIncludeEnv A B) A ⟨[], [], []⟩ =
          .error (.circular [A, B, A])) ∧
    (∀ (fuel : Nat) (A : String), normalisePath A = A →
        resolveFile (fuel + 2) (selfIncludeEnv A) A ⟨[], [], []⟩ =
          .error (.circular [A, A])) := by
  refine ⟨?_, ?_, ?_⟩
  · intro fuel env p st h
    simp only [resolveFile]
    rw [if_pos h]
  · intro fuel A B hne hA hB
    have hne' : B ≠ A := Ne.symm hne
    simp [resolveFile, renderItems, renderItem, pairIncludeEnv, includeOnly,
      lookupAssoc, insertSet, hA, hB, hne, hne']
  · intro fuel A hA
    simp [resolveFile, renderItems, renderItem, selfIncludeEnv, includeOnly,
      lookupAssoc, insertSet, hA]

/-- C1 witness: the cycle theorems applied at concrete files. -/
theorem C1_cycle_detection_witness :
    resolveFile 3 (pairIncludeEnv "a.md" "b.md") "a.md" ⟨[], [], []⟩ =
      .error (.circular ["a.md", "b.md", "a.md"]) ∧
    resolveFile 2 (selfIncludeEnv "a.md") "a.md" ⟨[], [], []⟩ =
      .error (.circular ["a.md", "a.md"]) ∧
    resolveFile 1 (pairIncludeEnv "a.md" "b.md") "a.md" ⟨["a.md"], [], []⟩ =
      .error (.circular ["a.md", "a.md"]) :=
  ⟨C1_cycle_detection.2.1 0 "a.md" "b.md" (by decide) (by decide) (by decide),
   C1_cycle_detection.2.2 0 "a.md" (by decide),
   C1_cycle_detection.1 0 (pairIncludeEnv "a.md" "b.md") "a.md" ⟨["a.md"], [], []⟩ (by decide)⟩

/-- A scanned file tagged `x` with the given optional order and a text
body. -/
def C3file (p : String) (o : Option Int) (body : String) : ScannedFile :=
  { path := p
    frontmatter := [("instrux", Value.vmap ([("tags", Value.listStr ["x"])] ++
      (match o with | some n => [("order", Value.num n)] | none => [])))]
    content := [Item.text body] }

/-- Three files tagged `x` with orders 2, missing, 1, plus an entry that
tag-includes `x`. -/
def C3inputs : List ScannedFile :=
  [C3file "f1.md" (some 2) "TWO", C3file "f2.md" none "NONE",
   C3file "f3.md" (some 1) "ONE",
   { path := "entry.md", frontmatter := [], content := [Item.tag "x"] }]

/-- The environment built over `C3inputs`. -/
def C3env : Env :=
  { index := buildSourceIndex C3inputs, disk := [], sep := "\n---\n\n" }

/-- Tie-break fixture: order 5, path `a.md`. -/
def C3tieA : SourceFile :=
  { path := "a.md", frontmatter := [], instrux := { order := some 5 }, content := [] }

/-- Tie-break fixture: order 5, path `b.md`. -/
def C3tieB : SourceFile :=
  { path := "b.md", frontmatter := [], instrux := { order := some 5 }, content := [] }

/-- C3: include-by-tag sorts its bucket by (order ascending, path
ascending), an absent order reading as 999: the sort is a permutation
sorted by that key; the three files with orders 2, missing, 1 render as
order-1, order-2, order-missing; and of two files with equal order the
lexicographically smaller path comes first. -/
theorem C3_tag_include_sort :
    (∀ l : List SourceFile, (sortSourceFiles l).Perm l ∧ (sortSourceFiles l).Sorted fileLe) ∧
    resolveText 2 C3env "entry.md" ⟨[], [], []⟩ = .ok "ONE\n---\n\nTWO\n---\n\nNONE" ∧
    (sortSourceFiles ((lookupAssoc C3env.index.tags "x").getD [])).map (fun f => f.path)
      = ["f3.md", "f1.md", "f2.md"] ∧
    (sortSourceFiles [C3tieB, C3tieA]).map (fun f => f.path) = ["a.md", "b.md"] :=
  ⟨fun l => ⟨List.perm_insertionSort _ l, List.sorted_insertionSort _ l⟩,
   by decide, by decide, by decide⟩

/-- A file with explicit order 1000 at path `a.md`. -/
def C7withOrder : SourceFile :=
  { path := "a.md", frontmatter := [], instrux := { order := some 1000 }, content := [] }

/-- A file without an order at path `b.md`. -/
def C7noOrder : SourceFile :=
  { path := "b.md", frontmatter := [], instrux := {}, content := [] }

/-- C7 counterexample: a file with the explicit order 1000 sorts after the
file with no order field (sentinel 999), so "the file without an order
sorts after the file with an explicit order" fails for this pair. -/
theorem C7_counterexample :
    (sortSourceFiles [C7withOrder, C7noOrder]).map (fun f => f.path) = ["b.md", "a.md"] ∧
    (sortSourceFiles [C7withOrder, C7noOrder]).map (fun f => f.path) ≠ ["a.md", "b.md"] := by
  decide

/-- C7 amended: for a pair of files where one has an explicit order below
the sentinel 999 and the other has no order field, the file without an
order sorts after the file with the explicit order, whichever way round
the pair arrives. -/
theorem C7_untagged_order_sorts_last (a b : SourceFile) (n : Int)
    (ha : a.instrux.order = some n) (hn : n < 999) (hb : b.instrux.order = none) :
    sortSourceFiles [a, b] = [a, b] ∧ sortSourceFiles [b, a] = [a, b] := by
  have hoa : orderOf a = n := by simp [orderOf, ha]
  have hob : orderOf b = 999 := by simp [orderOf, hb]
  have h1 : fileLe a b := Or.inl (by rw [hoa, hob]; exact hn)
  have h2 : ¬ fileLe b a := by
    rintro (h | ⟨h, -⟩)
    · rw [hoa, hob] at h; omega
    · rw [hoa, hob] at h; omega
  constructor
  · simp [sortSourceFiles, List.insertionSort, List.orderedInsert, h1]
  · simp [sortSourceFiles, List.insertionSort, List.orderedInsert, h2]

/-- C7 witness: the amended sort rule at a concrete pair (order 1 versus
no order). -/
theorem C7_untagged_order_sorts_last_witness :
    sortSourceFiles [C3tieA, C7noOrder] = [C3tieA, C7noOrder] ∧
    sortSourceFiles [C7noOrder, C3tieA] = [C3tieA, C7noOrder] :=
  C7_untagged_order_sorts_last C3tieA C7noOrder 5 (by decide) (by decide) (by decide)

/-- A scanned file at `a/b.md` with no pass-through title but a
compiler-metadata description `D`, tagged `t`. -/
def C8input : ScannedFile :=
  { path := "a/b.md"
    frontmatter := [("instrux", Value.vmap
      [("tags", Value.listStr ["t"]), ("description", Value.str "D")])]
    content := [Item.text "body"] }

/-- The environment built over the single file `C8input`. -/
def C8env : Env :=
  { index := buildSourceIndex [C8input], disk := [], sep := "\n---\n\n" }

/-- The `SourceFile` the indexer produces for `C8input`. -/
def C8sf : SourceFile :=
  { path := "a/b.md"
    frontmatter := [("instrux", Value.vmap
      [("tags", Value.listStr ["t"]), ("description", Value.str "D")])]
    instrux := { tags := some ["t"], order := none, description := some "D" }
    content := [Item.text "body"] }

/-- C8 counterexample: for a file with no pass-through title and
compiler-metadata description `D`, the tag-iteration element's title is
the filename-derived `b`, not `D` — the title does not fall back to the
compiler-metadata description as claimed. -/
theorem C8_counterexample :
    (taggedHelper 2 C8env "t" ⟨[], [], []⟩).map (fun r => r.1.map (fun e => e.title))
      = .ok ["b"] ∧
    (taggedHelper 2 C8env "t" ⟨[], [], []⟩).map (fun r => r.1.map (fun e => e.title))
      ≠ .ok ["D"] := by
  decide

/-- C8 amended: every element produced by the tag-iteration directive
exposes a title that is the file's pass-through title when present and
otherwise a filename-derived default (the basename with a trailing `.md`
removed); the compiler-metadata description is never consulted for the
title (it only feeds the element's description fallback). -/
theorem C8_title_fallback (resolve : Resolver) (files : List SourceFile) (st : RState)
    (elems : List TagElement) (st' : RState)
    (h : taggedElems resolve files st = .ok (elems, st')) :
    elems.map (fun e => e.title) = files.map titleOf ∧
    (∀ f : SourceFile, lookupAssoc f.frontmatter "title" = none →
      titleOf f = basenameNoMd f.path) ∧
    (∀ (f : SourceFile) (d : Option String),
      titleOf { f with instrux := { f.instrux with description := d } } = titleOf f) := by
  refine ⟨?_, fun f h' => by simp [titleOf, h'], fun f d => rfl⟩
  induction files generalizing st elems st' with
  | nil =>
    simp only [taggedElems, Except.ok.injEq, Prod.mk.injEq] at h
    simp [← h.1]
  | cons f rest ih =>
    rw [taggedElems] at h
    cases hres : resolve f.path st with
    | error e => simp [hres] at h
    | ok pr =>
      obtain ⟨body, st1⟩ := pr
      simp only [hres] at h
      cases hrest : taggedElems resolve rest st1 with
      | error e => simp [hrest] at h
      | ok pr2 =>
        obtain ⟨es, st2⟩ := pr2
        simp only [hrest, Except.ok.injEq, Prod.mk.injEq] at h
        obtain ⟨h1, -⟩ := h
        subst h1
        simp [ih st1 es st2 hrest]

/-- C8 witness: the amended title rule at the concrete single-file run of
the tag-iteration element builder. -/
theorem C8_title_fallback_witness :
    ([{ body := "body", raw := [Item.text "body"], path := "a/b.md", title := "b",
        description := "D", frontmatter := C8sf.frontmatter, instrux := C8sf.instrux }] :
      List TagElement).map (fun e => e.title) = [C8sf].map titleOf ∧
    (∀ f : SourceFile, lookupAssoc f.frontmatter "title" = none →
      titleOf f = basenameNoMd f.path) ∧
    (∀ (f : SourceFile) (d : Option String),
      titleOf { f with instrux := { f.instrux with description := d } } = titleOf f) :=
  C8_title_fallback (fun q s => resolveFile 2 C8env q s) [C8sf] ⟨[], [], []⟩
    [{ body := "body", raw := [Item.text "body"], path := "a/b.md", title := "b",
       description := "D", frontmatter := C8sf.frontmatter, instrux := C8sf.instrux }]
    ⟨[], ["a/b.md"], []⟩ (by rfl)

/-- A file tagged `t` twice, plus an entry that tag-includes `t`. -/
def C10inputs : List ScannedFile :=
  [{ path := "f.md"
     frontmatter := [("instrux", Value.vmap [("tags", Value.listStr ["t", "t"])])]
     content := [Item.text "B"] },
   { path := "e.md", frontmatter := [], content := [Item.tag "t"] }]

/-- The environment built over `C10inputs`. -/
def C10env : Env :=
  { index := buildSourceIndex C10inputs, disk := [], sep := "\n---\n\n" }

/-- C10: a file whose compiler-metadata tags list holds the same tag twice
appears twice in that tag's bucket, and both include-by-tag and
tag-iteration render/list it twice without any cycle error (the active
stack is popped between the sibling resolutions). -/
theorem C10_duplicate_tag_occurrences :
    ((lookupAssoc (buildSourceIndex C10inputs).tags "t").getD []).map (fun f => f.path)
      = ["f.md", "f.md"] ∧
    resolveText 2 C10env "e.md" ⟨[], [], []⟩ = .ok "B\n---\n\nB" ∧
    (taggedHelper 2 C10env "t" ⟨[], [], []⟩).map (fun r => r.1.map (fun e => e.path))
      = .ok ["f.md", "f.md"] := by
  decide

/-- The default merge settings of `instrux init` (separators on,
style `---`). -/
def defaultMergeSettings : MergeSettings :=
  { addSeparators := true
    separatorStyle := "---"
    includeFileHeaders := false
    preserveFormatting := true
    generateHash := false
    useTimestamp := false }

/-- A strip-mode configuration with entry `e.md`. -/
def C4cfg : AgentConfig :=
  { name := "N"
    description := ""
    entry := some "e.md"
    sources := ["*"]
    frontmatter := some ⟨.strip⟩
    mergeSettings := defaultMergeSettings }

/-- C4 counterexample: a body already ending in two newlines is emitted
unchanged (two trailing newlines, not exactly one, and no trailing
whitespace stripping), and an empty body compiles to a single newline
rather than staying empty. -/
theorem C4_counterexample :
    compileOutput 2 [{ path := "e.md", frontmatter := [], content := [Item.text "x\n\n"] }] [] C4cfg
      = .ok "x\n\n" ∧
    endsWithExactlyOneNewline "x\n\n" = false ∧
    compileOutput 2 [{ path := "e.md", frontmatter := [], content := [] }] [] C4cfg
      = .ok "\n" ∧
    ("\n" : String) ≠ "" := by
  decide

theorem endsWithNewline_ensure (s : String) :
    endsWithNewline (ensureTrailingNewline s) = true := by
  unfold ensureTrailingNewline
  by_cases hc : endsWithNewline s = true
  · rw [if_pos hc]; exact hc
  · rw [if_neg hc]
    unfold endsWithNewline
    have hdata : ("\n" : String).data = ['\n'] := rfl
    rw [String.data_append, hdata, List.getLast?_concat]
    rfl

/-- C4 amended: every successful compilation's output ends with a
trailing newline (one is appended exactly when the text does not already
end with one, so the normalization is idempotent); trailing whitespace is
not stripped, pre-existing extra trailing newlines are preserved, and an
empty result becomes a single newline rather than staying empty. -/
theorem C4_trailing_newline (fuel : Nat) (inputs : List ScannedFile) (disk : Disk)
    (config : AgentConfig) (r : CompileResult)
    (h : compile fuel inputs disk config = .ok r) :
    endsWithNewline r.output = true ∧
    (∀ s : String, ensureTrailingNewline (ensureTrailingNewline s) = ensureTrailingNewline s) := by
  constructor
  · simp only [compile] at h
    split at h
    · cases h
    · split at h
      · cases h
      · split at h
        · cases h
        · rename_i body st heq
          simp only [Except.ok.injEq] at h
          rw [← h]
          exact endsWithNewline_ensure _
  · intro s
    unfold ensureTrailingNewline
    by_cases hc : endsWithNewline s = true
    · rw [if_pos hc, if_pos hc]
    · rw [if_neg hc]
      have h2 : endsWithNewline (s ++ "\n") = true := by
        have := endsWithNewline_ensure s
        rwa [ensureTrailingNewline, if_neg hc] at this
      rw [if_pos h2]

/-- C4 witness: the amended trailing-newline guarantee at a concrete
compilation. -/
theorem C4_trailing_newline_witness :
    endsWithNewline (("hello\n" : String)) = true ∧
    (∀ s : String, ensureTrailingNewline (ensureTrailingNewline s) = ensureTrailingNewline s) :=
  C4_trailing_newline 2 [{ path := "e.md", frontmatter := [], content := [Item.text "hello"] }]
    [] C4cfg ⟨"hello\n", 1, []⟩ (by decide)

/-- Entry frontmatter with a pass-through `title` and a compiler-owned
`tags` list. -/
def C5fm : List (String × Value) :=
  [("title", Value.str "X"), ("instrux", Value.vmap [("tags", Value.listStr ["a"])])]

/-- A single entry file carrying `C5fm`. -/
def C5inputs : List ScannedFile :=
  [{ path := "e.md", frontmatter := C5fm, content := [Item.text "hello"] }]

/-- A preserve-mode configuration with entry `e.md`. -/
def C5cfgP : AgentConfig :=
  { name := "N"
    description := ""
    entry := some "e.md"
    sources := ["*"]
    frontmatter := some ⟨.preserve⟩
    mergeSettings := defaultMergeSettings }

/-- A strip-mode configuration with entry `e.md` (same as `C5cfgP`
otherwise). -/
def C5cfgS : AgentConfig :=
  { name := "N"
    description := ""
    entry := some "e.md"
    sources := ["*"]
    frontmatter := some ⟨.strip⟩
    mergeSettings := defaultMergeSettings }

/-- An entry file whose only frontmatter is an empty compiler block, so
its pass-through metadata set is empty. -/
def C5emptyInputs : List ScannedFile :=
  [{ path := "e.md", frontmatter := [("instrux", Value.vmap [])], content := [Item.text "hi"] }]

/-- C5: in preserve mode an entry with pass-through `title: X` and
compiler-owned `tags: [a]` compiles to an output whose prepended metadata
block contains `title: X` and not `tags`; in strip mode the same entry
compiles with no metadata block at all; and whenever the entry's
pass-through metadata set is empty, preserve mode produces the same output
as strip mode (no empty block is emitted). -/
theorem C5_metadata_roundtrip :
    compileOutput 2 C5inputs [] C5cfgP = .ok "---\ntitle: X\n---\n\nhello\n" ∧
    containsSubstr (serializeFrontmatter (stripInstruxMeta C5fm)) "title: X" = true ∧
    containsSubstr (serializeFrontmatter (stripInstruxMeta C5fm)) "tags" = false ∧
    compileOutput 2 C5inputs [] C5cfgS = .ok "hello\n" ∧
    containsSubstr "hello\n" "---" = false ∧
    (∀ (fuel : Nat) (inputs : List ScannedFile) (disk : Disk) (name desc e : String)
        (srcs : List String) (ms : MergeSettings) (es : SourceFile),
        lookupAssoc (buildSourceIndex inputs).paths (normalisePath e) = some es →
        stripInstruxMeta es.frontmatter = [] →
        compile fuel inputs disk ⟨name, desc, some e, srcs, some ⟨.preserve⟩, ms⟩ =
          compile fuel inputs disk ⟨name, desc, some e, srcs, some ⟨.strip⟩, ms⟩) := by
  refine ⟨by decide, by decide, by decide, by decide, by decide, ?_⟩
  intro fuel inputs disk name desc e srcs ms es h1 h2
  simp only [compile, Option.map, Option.getD, h1, h2]
  rfl

/-- C5 witness: an entry whose pass-through metadata set is empty compiles
identically in preserve and strip modes. -/
theorem C5_metadata_roundtrip_witness :
    compile 2 C5emptyInputs [] ⟨"N", "", some "e.md", ["*"], some ⟨.preserve⟩, defaultMergeSettings⟩ =
      compile 2 C5emptyInputs [] ⟨"N", "", some "e.md", ["*"], some ⟨.strip⟩, defaultMergeSettings⟩ :=
  C5_metadata_roundtrip.2.2.2.2.2 2 C5emptyInputs [] "N" "" "e.md" ["*"] defaultMergeSettings
    ⟨"e.md", [("instrux", Value.vmap [])], ⟨none, none, none⟩, [Item.text "hi"]⟩
    rfl rfl

/-- Frontmatter of the on-disk fallback file: a key `k` with value `V`. -/
def C9diskFm : List (String × Value) := [("k", Value.str "V")]

/-- An environment with an empty index and a disk file `d.md` whose body
is one metadata lookup of its own frontmatter key. -/
def C9env : Env :=
  { index := ⟨[], [], []⟩, disk := [("d.md", (C9diskFm, [Item.meta "k"]))], sep := "s" }

/-- The same file as an indexed source file. -/
def C9sf : SourceFile := ⟨"d.md", C9diskFm, {}, [Item.meta "k"]⟩

/-- An environment where the same file is in the index instead. -/
def C9envIndexed : Env :=
  { index := ⟨[C9sf], [], [("d.md", C9sf)]⟩
    disk := [("d.md", (C9diskFm, [Item.meta "k"]))]
    sep := "s" }

/-- C9: a file resolved through the direct-disk-read fallback renders with
an empty metadata context — the frontmatter parsed from the disk read is
discarded — so any metadata lookup inside it yields the empty string even
when the on-disk frontmatter has that key; the same file resolved through
the index renders the value. -/
theorem C9_disk_fallback_discards_frontmatter :
    (∀ (fuel : Nat) (env : Env) (p k : String) (st : RState)
        (fm : List (String × Value)) (v : Value),
        normalisePath p = p → p ∉ st.activeStack →
        lookupAssoc env.index.paths p = none →
        lookupAssoc env.disk p = some (fm, [Item.meta k]) →
        lookupAssoc fm k = some v →
        resolveText (fuel + 1) env p st = .ok "") ∧
    resolveText 1 C9env "d.md" ⟨[], [], []⟩ = .ok "" ∧
    resolveText 1 C9envIndexed "d.md" ⟨[], [], []⟩ = .ok "V" := by
  refine ⟨?_, by decide, by decide⟩
  intro fuel env p k st fm v hnorm hmem h1 h2 h3
  simp [resolveText, resolveFile, renderItems, renderItem, lookupAssoc, Except.map, hnorm,
    hmem, h1, h2]

/-- C9 witness: the disk-fallback metadata discard at the concrete
environment. -/
theorem C9_disk_fallback_discards_frontmatter_witness :
    resolveText 1 C9env "d.md" ⟨[], [], []⟩ = .ok "" :=
  C9_disk_fallback_discards_frontmatter.1 0 C9env "d.md" "k" ⟨[], [], []⟩ C9diskFm
    (Value.str "V") (by decide) (by decide) rfl rfl rfl

-- ── Termination (C2) and file-not-found soundness (C6) ───────

/-- Every path that can yield content: the index's path keys followed by
the disk's path keys. -/
def universePaths (env : Env) : List String :=
  env.index.paths.map Prod.fst ++ env.disk.map Prod.fst

/-- The number of distinct resolvable paths. -/
def universeBound (env : Env) : Nat :=
  (universePaths env).dedup.length

theorem lookupAssoc_mem_keys {α : Type} :
    ∀ (l : List (String × α)) (k : String) (v : α),
      lookupAssoc l k = some v → k ∈ l.map Prod.fst
  | [], k, v, h => by simp [lookupAssoc] at h
  | (k', v') :: rest, k, v, h => by
    by_cases hk : k' = k
    · subst hk; simp
    · simp only [lookupAssoc, if_neg hk] at h
      simpa using Or.inr (lookupAssoc_mem_keys rest k v h)

theorem nodup_subset_dedup_length {l u : List String}
    (hn : l.Nodup) (hs : ∀ x ∈ l, x ∈ u) : l.length ≤ u.dedup.length := by
  have h1 : l.toFinset.card = l.length := List.toFinset_card_of_nodup hn
  have h2 : l.toFinset ⊆ u.toFinset := fun x hx =>
    List.mem_toFinset.mpr (hs x (List.mem_toFinset.mp hx))
  have h3 := Finset.card_le_card h2
  rwa [h1, List.card_toFinset] at h3

theorem erase_append_singleton {l : List String} {p : String} (h : p ∉ l) :
    (l ++ [p]).erase p = l := by
  rw [List.erase_append_right _ h, List.erase_cons_head, List.append_nil]

/-- A resolver behaves well against a fixed active stack `L`: started on
`L` it never runs out of fuel, and on success it hands the stack back
unchanged. -/
def GoodOn (resolve : Resolver) (L : List String) : Prop :=
  ∀ (q : String) (st : RState), st.activeStack = L →
    resolve q st ≠ .error .outOfFuel ∧
    (∀ s st', resolve q st = .ok (s, st') → st'.activeStack = L)

theorem renderPaths_good {resolve : Resolver} {L : List String} (hg : GoodOn resolve L) :
    ∀ (ps : List String) (st : RState), st.activeStack = L →
      renderPaths resolve ps st ≠ .error .outOfFuel ∧
      (∀ ss st', renderPaths resolve ps st = .ok (ss, st') → st'.activeStack = L) := by
  intro ps
  induction ps with
  | nil =>
    intro st hst
    refine ⟨by simp [renderPaths], fun ss st' h => ?_⟩
    simp only [renderPaths, Except.ok.injEq, Prod.mk.injEq] at h
    rw [← h.2]; exact hst
  | cons p rest ih =>
    intro st hst
    cases hres : resolve p st with
    | error e =>
      refine ⟨?_, fun ss st' h => ?_⟩
      · simp only [renderPaths, hres]
        intro hcon
        injection hcon with he
        subst he
        exact (hg p st hst).1 hres
      · simp only [renderPaths, hres] at h
        cases h
    | ok pr =>
      obtain ⟨s, st1⟩ := pr
      have hst1 : st1.activeStack = L := (hg p st hst).2 s st1 hres
      cases hrest : renderPaths resolve rest st1 with
      | error e =>
        refine ⟨?_, fun ss st' h => ?_⟩
        · simp only [renderPaths, hres, hrest]
          intro hcon
          injection hcon with he
          subst he
          exact (ih st1 hst1).1 hrest
        · simp only [renderPaths, hres, hrest] at h
          cases h
      | ok pr2 =>
        obtain ⟨ss1, st2⟩ := pr2
        have hst2 : st2.activeStack = L := (ih st1 hst1).2 ss1 st2 hrest
        refine ⟨?_, fun ss st' h => ?_⟩
        · simp only [renderPaths, hres, hrest]
          intro hcon
          cases hcon
        · simp only [renderPaths, hres, hrest] at h
          simp only [Except.ok.injEq, Prod.mk.injEq] at h
          rw [← h.2]; exact hst2

theorem taggedElems_good {resolve : Resolver} {L : List String} (hg : GoodOn resolve L) :
    ∀ (files : List SourceFile) (st : RState), st.activeStack = L →
      taggedElems resolve files st ≠ .error .outOfFuel ∧
      (∀ es st', taggedElems resolve files st = .ok (es, st') → st'.activeStack = L) := by
  intro files
  induction files with
  | nil =>
    intro st hst
    refine ⟨by simp [taggedElems], fun es st' h => ?_⟩
    simp only [taggedElems, Except.ok.injEq, Prod.mk.injEq] at h
    rw [← h.2]; exact hst
  | cons f rest ih =>
    intro st hst
    cases hres : resolve f.path st with
    | error e =>
      refine ⟨?_, fun es st' h => ?_⟩
      · simp only [taggedElems, hres]
        intro hcon
        injection hcon with he
        subst he
        exact (hg f.path st hst).1 hres
      · simp only [taggedElems, hres] at h
        cases h
    | ok pr =>
      obtain ⟨body, st1⟩ := pr
      have hst1 : st1.activeStack = L := (hg f.path st hst).2 body st1 hres
      cases hrest : taggedElems resolve rest st1 with
      | error e =>
        refine ⟨?_, fun es st' h => ?_⟩
        · simp only [taggedElems, hres, hrest]
          intro hcon
          injection hcon with he
          subst he
          exact (ih st1 hst1).1 hrest
        · simp only [taggedElems, hres, hrest] at h
          cases h
      | ok pr2 =>
        obtain ⟨es1, st2⟩ := pr2
        have hst2 : st2.activeStack = L := (ih st1 hst1).2 es1 st2 hrest
        refine ⟨?_, fun es st' h => ?_⟩
        · simp only [taggedElems, hres, hrest]
          intro hcon
          cases hcon
        · simp only [taggedElems, hres, hrest, Except.ok.injEq, Prod.mk.injEq] at h
          rw [← h.2]; exact hst2

theorem renderItem_good {resolve : Resolver} {L : List String} (env : Env)
    (meta : List (String × Value)) (hg : GoodOn resolve L) :
    ∀ (it : Item) (st : RState), st.activeStack = L →
      renderItem resolve env meta it st ≠ .error .outOfFuel ∧
      (∀ s st', renderItem resolve env meta it st = .ok (s, st') → st'.activeStack = L) := by
  intro it st hst
  cases it with
  | text s =>
    refine ⟨by simp [renderItem], fun s' st' h => ?_⟩
    simp only [renderItem, Except.ok.injEq, Prod.mk.injEq] at h
    rw [← h.2]; exact hst
  | meta k =>
    refine ⟨by simp [renderItem], fun s' st' h => ?_⟩
    simp only [renderItem, Except.ok.injEq, Prod.mk.injEq] at h
    rw [← h.2]; exact hst
  | file p => exact hg p st hst
  | tag t =>
    by_cases hempty : ((lookupAssoc env.index.tags t).getD []).isEmpty = true
    · refine ⟨by simp [renderItem, hempty], fun s' st' h => ?_⟩
      simp [renderItem, hempty] at h
      rw [← h.2]; exact hst
    · have hrp := renderPaths_good hg
        ((sortSourceFiles ((lookupAssoc env.index.tags t).getD [])).map (fun f => f.path))
        ⟨st.activeStack, st.compiledFiles, insertSet t st.tagsUsed⟩ hst
      cases hres : renderPaths resolve
          ((sortSourceFiles ((lookupAssoc env.index.tags t).getD [])).map (fun f => f.path))
          ⟨st.activeStack, st.compiledFiles, insertSet t st.tagsUsed⟩ with
      | error e =>
        refine ⟨?_, fun s' st' h => ?_⟩
        · simp only [renderItem, if_neg hempty, hres]
          intro hcon
          injection hcon with he
          subst he
          exact hrp.1 hres
        · simp only [renderItem, if_neg hempty, hres] at h
          cases h
      | ok pr =>
        obtain ⟨parts, st2⟩ := pr
        have hst2 : st2.activeStack = L := hrp.2 parts st2 hres
        refine ⟨?_, fun s' st' h => ?_⟩
        · simp only [renderItem, if_neg hempty, hres]
          intro hcon
          cases hcon
        · simp only [renderItem, if_neg hempty, hres, Except.ok.injEq, Prod.mk.injEq] at h
          rw [← h.2]; exact hst2
  | tagged t =>
    by_cases hempty : ((lookupAssoc env.index.tags t).getD []).isEmpty = true
    · refine ⟨by simp [renderItem, hempty], fun s' st' h => ?_⟩
      simp [renderItem, hempty] at h
      rw [← h.2]; exact hst
    · have hte := taggedElems_good hg
        (sortSourceFiles ((lookupAssoc env.index.tags t).getD []))
        ⟨st.activeStack, st.compiledFiles, insertSet t st.tagsUsed⟩ hst
      cases hres : taggedElems resolve
          (sortSourceFiles ((lookupAssoc env.index.tags t).getD []))
          ⟨st.activeStack, st.compiledFiles, insertSet t st.tagsUsed⟩ with
      | error e =>
        refine ⟨?_, fun s' st' h => ?_⟩
        · simp only [renderItem, if_neg hempty, hres]
          intro hcon
          injection hcon with he
          subst he
          exact hte.1 hres
        · simp only [renderItem, if_neg hempty, hres] at h
          cases h
      | ok pr =>
        obtain ⟨es, st2⟩ := pr
        have hst2 : st2.activeStack = L := hte.2 es st2 hres
        refine ⟨?_, fun s' st' h => ?_⟩
        · simp only [renderItem, if_neg hempty, hres]
          intro hcon
          cases hcon
        · simp only [renderItem, if_neg hempty, hres, Except.ok.injEq, Prod.mk.injEq] at h
          rw [← h.2]; exact hst2

theorem renderItems_good {resolve : Resolver} {L : List String} (env : Env)
    (meta : List (String × Value)) (hg : GoodOn resolve L) :
    ∀ (items : List Item) (st : RState), st.activeStack = L →
      renderItems resolve env meta items st ≠ .error .outOfFuel ∧
      (∀ s st', renderItems resolve env meta items st = .ok (s, st') → st'.activeStack = L) := by
  intro items
  induction items with
  | nil =>
    intro st hst
    refine ⟨by simp [renderItems], fun s st' h => ?_⟩
    simp only [renderItems, Except.ok.injEq, Prod.mk.injEq] at h
    rw [← h.2]; exact hst
  | cons it rest ih =>
    intro st hst
    cases hres : renderItem resolve env meta it st with
    | error e =>
      refine ⟨?_, fun s st' h => ?_⟩
      · simp only [renderItems, hres]
        intro hcon
        injection hcon with he
        subst he
        exact (renderItem_good env meta hg it st hst).1 hres
      · simp only [renderItems, hres] at h
        cases h
    | ok pr =>
      obtain ⟨s1, st1⟩ := pr
      have hst1 : st1.activeStack = L := (renderItem_good env meta hg it st hst).2 s1 st1 hres
      cases hrest : renderItems resolve env meta rest st1 with
      | error e =>
        refine ⟨?_, fun s st' h => ?_⟩
        · simp only [renderItems, hres, hrest]
          intro hcon
          injection hcon with he
          subst he
          exact (ih st1 hst1).1 hrest
        · simp only [renderItems, hres, hrest] at h
          cases h
      | ok pr2 =>
        obtain ⟨s2, st2⟩ := pr2
        have hst2 : st2.activeStack = L := (ih st1 hst1).2 s2 st2 hrest
        refine ⟨?_, fun s st' h => ?_⟩
        · simp only [renderItems, hres, hrest]
          intro hcon
          cases hcon
        · simp only [renderItems, hres, hrest] at h
          simp only [Except.ok.injEq, Prod.mk.injEq] at h
          rw [← h.2]; exact hst2

/-- The fuel argument is only a formal device: with fuel covering the
distinct resolvable paths not yet on the (duplicate-free) active stack,
`resolveFile` never exhausts it, and on success it restores the stack. -/
theorem resolveFile_no_fuel_exhaustion :
    ∀ (fuel : Nat) (env : Env) (p : String) (st : RState),
      st.activeStack.Nodup → (∀ q ∈ st.activeStack, q ∈ universePaths env) →
      universeBound env + 1 ≤ fuel + st.activeStack.length →
      resolveFile fuel env p st ≠ .error .outOfFuel ∧
      (∀ s st', resolveFile fuel env p st = .ok (s, st') → st'.activeStack = st.activeStack) := by
  intro fuel
  induction fuel with
  | zero =>
    intro env p st hn hsub hb
    have := nodup_subset_dedup_length hn hsub
    exact absurd hb (by unfold universeBound at *; omega)
  | succ fuel ih =>
    intro env p st hn hsub hb
    by_cases hmem : normalisePath p ∈ st.activeStack
    · refine ⟨?_, fun s st' h => ?_⟩
      · simp only [resolveFile, if_pos hmem]
        intro hcon
        cases hcon
      · simp only [resolveFile, if_pos hmem] at h
        cases h
    · have hnodL : (st.activeStack ++ [normalisePath p]).Nodup := by
        simp [List.nodup_append, hn, hmem]
      have hlenL : (st.activeStack ++ [normalisePath p]).length = st.activeStack.length + 1 := by
        simp
      have hgood : ∀ _ : normalisePath p ∈ universePaths env,
          GoodOn (fun q s => resolveFile fuel env q s) (st.activeStack ++ [normalisePath p]) := by
        intro hpU q st' hst'
        have hsubL : ∀ r ∈ st.activeStack ++ [normalisePath p], r ∈ universePaths env := by
          intro r hr
          rcases List.mem_append.mp hr with hr | hr
          · exact hsub r hr
          · rw [List.mem_singleton.mp hr]; exact hpU
        have := ih env q st' (hst' ▸ hnodL) (fun r hr => hsubL r (hst' ▸ hr))
          (by rw [hst', hlenL]; omega)
        exact ⟨this.1, fun s st'' hok => (this.2 s st'' hok).trans hst'⟩
      cases hidx : lookupAssoc env.index.paths (normalisePath p) with
      | none =>
        cases hdisk : lookupAssoc env.disk (normalisePath p) with
        | none =>
          refine ⟨?_, fun s st' h => ?_⟩
          · simp only [resolveFile, if_neg hmem, hidx, hdisk, Option.map_none']
            intro hcon
            cases hcon
          · simp only [resolveFile, if_neg hmem, hidx, hdisk, Option.map_none'] at h
            cases h
        | some d =>
          have hpU : normalisePath p ∈ universePaths env := by
            unfold universePaths
            exact List.mem_append.mpr (Or.inr (lookupAssoc_mem_keys _ _ _ hdisk))
          have hri := renderItems_good env [] (hgood hpU) d.2
            ⟨st.activeStack ++ [normalisePath p],
             insertSet (normalisePath p) st.compiledFiles, st.tagsUsed⟩ rfl
          cases hres : renderItems (fun q s => resolveFile fuel env q s) env [] d.2
              ⟨st.activeStack ++ [normalisePath p],
               insertSet (normalisePath p) st.compiledFiles, st.tagsUsed⟩ with
          | error e =>
            refine ⟨?_, fun s st' h => ?_⟩
            · simp only [resolveFile, if_neg hmem, hidx, hdisk, Option.map_some', hres]
              intro hcon
              injection hcon with he
              subst he
              exact hri.1 hres
            · simp only [resolveFile, if_neg hmem, hidx, hdisk, Option.map_some', hres] at h
              cases h
          | ok pr =>
            obtain ⟨s2, st2⟩ := pr
            have hst2 := hri.2 s2 st2 hres
            refine ⟨?_, fun s st' h => ?_⟩
            · simp only [resolveFile, if_neg hmem, hidx, hdisk, Option.map_some', hres]
              intro hcon
              cases hcon
            · simp only [resolveFile, if_neg hmem, hidx, hdisk, Option.map_some', hres,
                Except.ok.injEq, Prod.mk.injEq] at h
              rw [← h.2]
              simp only [hst2]
              exact erase_append_singleton hmem
      | some sf =>
        have hpU : normalisePath p ∈ universePaths env := by
          unfold universePaths
          exact List.mem_append.mpr (Or.inl (lookupAssoc_mem_keys _ _ _ hidx))
        have hri := renderItems_good env sf.frontmatter (hgood hpU) sf.content
          ⟨st.activeStack ++ [normalisePath p],
           insertSet (normalisePath p) st.compiledFiles, st.tagsUsed⟩ rfl
        cases hres : renderItems (fun q s => resolveFile fuel env q s) env sf.frontmatter sf.content
            ⟨st.activeStack ++ [normalisePath p],
             insertSet (normalisePath p) st.compiledFiles, st.tagsUsed⟩ with
        | error e =>
          refine ⟨?_, fun s st' h => ?_⟩
          · simp only [resolveFile, if_neg hmem, hidx, hres]
            intro hcon
            injection hcon with he
            subst he
            exact hri.1 hres
          · simp only [resolveFile, if_neg hmem, hidx, hres] at h
            cases h
        | ok pr =>
          obtain ⟨s2, st2⟩ := pr
          have hst2 := hri.2 s2 st2 hres
          refine ⟨?_, fun s st' h => ?_⟩
          · simp only [resolveFile, if_neg hmem, hidx, hres]
            intro hcon
            cases hcon
          · simp only [resolveFile, if_neg hmem, hidx, hres,
              Except.ok.injEq, Prod.mk.injEq] at h
            rw [← h.2]
            simp only [hst2]
            exact erase_append_singleton hmem

/-- A file whose body tag-iterates a bucket containing itself. -/
def taggedCycleEnv : Env :=
  { index := buildSourceIndex
      [{ path := "c.md"
         frontmatter := [("instrux", Value.vmap [("tags", Value.listStr ["u"])])]
         content := [Item.tagged "u"] }]
    disk := []
    sep := "\n---\n\n" }

/-- The `tagged` directive is a genuine recursion source inside template
content: a file that tag-iterates a bucket containing itself reaches the
cycle check through the element builder's recursive resolution. -/
theorem taggedItem_recurses :
    resolveText 2 taggedCycleEnv "c.md" ⟨[], [], []⟩ =
      .error (.circular ["c.md", "c.md"]) := by
  decide

/-- C2: for a finite index and a finite disk, resolving any input path
from a fresh state with fuel exceeding the number of distinct resolvable
paths never exhausts the fuel — resolution returns rendered text or
raises a genuine error, because the active-stack cycle check bounds the
recursion depth by the number of distinct reachable paths. -/
theorem C2_termination (env : Env) (p : String) :
    resolveFile (universeBound env + 1) env p ⟨[], [], []⟩ ≠ .error .outOfFuel :=
  (resolveFile_no_fuel_exhaustion (universeBound env + 1) env p ⟨[], [], []⟩
    List.nodup_nil (by simp) (by simp)).1

/-- A resolver only reports file-not-found for paths that are keys of
neither the index nor the disk. -/
def FnfSound (env : Env) (resolve : Resolver) : Prop :=
  ∀ (q : String) (st : RState) (x : String),
    resolve q st = .error (.fileNotFound x) →
    lookupAssoc env.index.paths x = none ∧ lookupAssoc env.disk x = none

theorem renderPaths_fnf {env : Env} {resolve : Resolver} (hs : FnfSound env resolve) :
    ∀ (ps : List String) (st : RState) (x : String),
      renderPaths resolve ps st = .error (.fileNotFound x) →
      lookupAssoc env.index.paths x = none ∧ lookupAssoc env.disk x = none := by
  intro ps
  induction ps with
  | nil => intro st x h; simp [renderPaths] at h
  | cons p rest ih =>
    intro st x h
    cases hres : resolve p st with
    | error e =>
      simp only [renderPaths, hres] at h
      injection h with he
      subst he
      exact hs p st x hres
    | ok pr =>
      obtain ⟨s, st1⟩ := pr
      simp only [renderPaths, hres] at h
      cases hrest : renderPaths resolve rest st1 with
      | error e =>
        rw [hrest] at h
        injection h with he
        subst he
        exact ih st1 x hrest
      | ok pr2 =>
        obtain ⟨ss, st2⟩ := pr2
        rw [hrest] at h
        cases h

theorem taggedElems_fnf {env : Env} {resolve : Resolver} (hs : FnfSound env resolve) :
    ∀ (files : List SourceFile) (st : RState) (x : String),
      taggedElems resolve files st = .error (.fileNotFound x) →
      lookupAssoc env.index.paths x = none ∧ lookupAssoc env.disk x = none := by
  intro files
  induction files with
  | nil => intro st x h; simp [taggedElems] at h
  | cons f rest ih =>
    intro st x h
    cases hres : resolve f.path st with
    | error e =>
      simp only [taggedElems, hres] at h
      injection h with he
      subst he
      exact hs f.path st x hres
    | ok pr =>
      obtain ⟨body, st1⟩ := pr
      simp only [taggedElems, hres] at h
      cases hrest : taggedElems resolve rest st1 with
      | error e =>
        rw [hrest] at h
        injection h with he
        subst he
        exact ih st1 x hrest
      | ok pr2 =>
        obtain ⟨es, st2⟩ := pr2
        rw [hrest] at h
        cases h

theorem renderItem_fnf {env : Env} {resolve : Resolver} (hs : FnfSound env resolve)
    (meta : List (String × Value)) :
    ∀ (it : Item) (st : RState) (x : String),
      renderItem resolve env meta it st = .error (.fileNotFound x) →
      lookupAssoc env.index.paths x = none ∧ lookupAssoc env.disk x = none := by
  intro it st x h
  cases it with
  | text s => simp [renderItem] at h
  | meta k => simp [renderItem] at h
  | file p => exact hs p st x h
  | tag t =>
    by_cases hempty : ((lookupAssoc env.index.tags t).getD []).isEmpty = true
    · simp [renderItem, hempty] at h
    · simp only [renderItem, if_neg hempty] at h
      cases hres : renderPaths resolve
          ((sortSourceFiles ((lookupAssoc env.index.tags t).getD [])).map (fun f => f.path))
          ⟨st.activeStack, st.compiledFiles, insertSet t st.tagsUsed⟩ with
      | error e =>
        rw [hres] at h
        injection h with he
        subst he
        exact renderPaths_fnf hs _ _ x hres
      | ok pr =>
        obtain ⟨parts, st2⟩ := pr
        rw [hres] at h
        cases h
  | tagged t =>
    by_cases hempty : ((lookupAssoc env.index.tags t).getD []).isEmpty = true
    · simp [renderItem, hempty] at h
    · simp only [renderItem, if_neg hempty] at h
      cases hres : taggedElems resolve
          (sortSourceFiles ((lookupAssoc env.index.tags t).getD []))
          ⟨st.activeStack, st.compiledFiles, insertSet t st.tagsUsed⟩ with
      | error e =>
        rw [hres] at h
        injection h with he
        subst he
        exact taggedElems_fnf hs _ _ x hres
      | ok pr =>
        obtain ⟨es, st2⟩ := pr
        rw [hres] at h
        cases h

theorem renderItems_fnf {env : Env} {resolve : Resolver} (hs : FnfSound env resolve)
    (meta : List (String × Value)) :
    ∀ (items : List Item) (st : RState) (x : String),
      renderItems resolve env meta items st = .error (.fileNotFound x) →
      lookupAssoc env.index.paths x = none ∧ lookupAssoc env.disk x = none := by
  intro items
  induction items with
  | nil => intro st x h; simp [renderItems] at h
  | cons it rest ih =>
    intro st x h
    cases hres : renderItem resolve env meta it st with
    | error e =>
      simp only [renderItems, hres] at h
      injection h with he
      subst he
      exact renderItem_fnf hs meta it st x hres
    | ok pr =>
      obtain ⟨s1, st1⟩ := pr
      simp only [renderItems, hres] at h
      cases hrest : renderItems resolve env meta rest st1 with
      | error e =>
        rw [hrest] at h
        injection h with he
        subst he
        exact ih st1 x hrest
      | ok pr2 =>
        obtain ⟨s2, st2⟩ := pr2
        rw [hrest] at h
        cases h

/-- A file-not-found error, at every fuel level, names a path that is a
key of neither the index nor the disk. -/
theorem resolveFile_fnf_sound :
    ∀ (fuel : Nat) (env : Env), FnfSound env (fun q s => resolveFile fuel env q s) := by
  intro fuel
  induction fuel with
  | zero => intro env q st x h; simp [resolveFile] at h
  | succ fuel ih =>
    intro env q st x h
    by_cases hmem : normalisePath q ∈ st.activeStack
    · simp only [resolveFile, if_pos hmem] at h
      cases h
    · cases hidx : lookupAssoc env.index.paths (normalisePath q) with
      | none =>
        cases hdisk : lookupAssoc env.disk (normalisePath q) with
        | none =>
          simp only [resolveFile, if_neg hmem, hidx, hdisk, Option.map_none'] at h
          injection h with he
          injection he with hx
          rw [← hx]
          exact ⟨hidx, hdisk⟩
        | some d =>
          simp only [resolveFile, if_neg hmem, hidx, hdisk, Option.map_some'] at h
          cases hres : renderItems (fun q s => resolveFile fuel env q s) env [] d.2
              ⟨st.activeStack ++ [normalisePath q],
               insertSet (normalisePath q) st.compiledFiles, st.tagsUsed⟩ with
          | error e =>
            rw [hres] at h
            injection h with he
            subst he
            exact renderItems_fnf (ih env) [] d.2 _ x hres
          | ok pr =>
            obtain ⟨s2, st2⟩ := pr
            rw [hres] at h
            cases h
      | some sf =>
        simp only [resolveFile, if_neg hmem, hidx] at h
        cases hres : renderItems (fun q s => resolveFile fuel env q s) env sf.frontmatter
            sf.content
            ⟨st.activeStack ++ [normalisePath q],
             insertSet (normalisePath q) st.compiledFiles, st.tagsUsed⟩ with
        | error e =>
          rw [hres] at h
          injection h with he
          subst he
          exact renderItems_fnf (ih env) sf.frontmatter sf.content _ x hres
        | ok pr =>
          obtain ⟨s2, st2⟩ := pr
          rw [hres] at h
          cases h

/-- A file present only in the index, with a disk copy whose body differs. -/
def C6indexFile : SourceFile := ⟨"p.md", [], {}, [Item.text "IDX"]⟩

/-- An environment where `p.md` is both indexed (body `IDX`) and on disk
(body `DISK`). -/
def C6envBoth : Env :=
  { index := ⟨[C6indexFile], [], [("p.md", C6indexFile)]⟩
    disk := [("p.md", ([], [Item.text "DISK"]))]
    sep := "s" }

/-- An environment where `p.md` exists only on disk. -/
def C6envDiskOnly : Env :=
  { index := ⟨[], [], []⟩, disk := [("p.md", ([], [Item.text "DISK"]))], sep := "s" }

/-- C6: resolution takes the body from the index when the path is indexed
(even when a different disk copy exists), falls back to the disk read
otherwise, and raises a file-not-found error naming the path exactly when
the path is a key of neither the index nor the disk. -/
theorem C6_resolution_source_and_not_found :
    (∀ (fuel : Nat) (env : Env) (p : String) (st : RState),
        normalisePath p = p → p ∉ st.activeStack →
        lookupAssoc env.index.paths p = none →
        lookupAssoc env.disk p = none →
        resolveFile (fuel + 1) env p st = .error (.fileNotFound p)) ∧
    (∀ (fuel : Nat) (env : Env) (q : String) (st : RState) (x : String),
        resolveFile fuel env q st = .error (.fileNotFound x) →
        lookupAssoc env.index.paths x = none ∧ lookupAssoc env.disk x = none) ∧
    resolveText 1 C6envBoth "p.md" ⟨[], [], []⟩ = .ok "IDX" ∧
    resolveText 1 C6envDiskOnly "p.md" ⟨[], [], []⟩ = .ok "DISK" := by
  refine ⟨?_, fun fuel env => resolveFile_fnf_sound fuel env, by decide, by decide⟩
  intro fuel env p st hnorm hmem h1 h2
  simp [resolveFile, hnorm, hmem, h1, h2]

/-- C6 witness: a path absent from both the index and the disk raises the
file-not-found error naming it. -/
theorem C6_resolution_source_and_not_found_witness :
    resolveFile 1 C6envDiskOnly "nope.md" ⟨[], [], []⟩ = .error (.fileNotFound "nope.md") :=
  C6_resolution_source_and_not_found.1 0 C6envDiskOnly "nope.md" ⟨[], [], []⟩
    (by decide) (by decide) rfl rfl

end Instrux
